import Mathlib

/-!
Verification development for the sales-returns reporting dashboard
(`returns.py`, `top_sellers.py`, `search_products.py`).

The pandas pipeline is shallowly embedded: tables are lists of rows,
`groupby(...).sum()` becomes an explicit key-dedup + sum, `pd.merge`
becomes an explicit join over lists, pandas float results (including the
NaN / infinity values produced by dividing by zero) are modelled by an
inductive `PVal` over exact rationals, and exceptions are modelled with
`Except` / `Option`.
-/

namespace AmazonReturns

/-! ## Generic stable insertion sort (models pandas stable sorting) -/

/-- Insert `a` into `l`, placing it before the first element `b` with
`le a b = true`.  Folding this from the right over a list is a stable
insertion sort for the (total) boolean relation `le`. -/
def insertSorted (le : α → α → Bool) (a : α) : List α → List α
  | [] => [a]
  | b :: l => if le a b then a :: b :: l else b :: insertSorted le a l

/-- Stable sort of a list by the boolean relation `le`. -/
def sortWith (le : α → α → Bool) (l : List α) : List α :=
  l.foldr (insertSorted le) []

theorem insertSorted_perm (le : α → α → Bool) (a : α) (l : List α) :
    List.Perm (insertSorted le a l) (a :: l) := by
  induction l with
  | nil => exact List.Perm.refl _
  | cons b l ih =>
    simp only [insertSorted]
    by_cases h : le a b = true
    · simp [h]
    · simp only [h, if_neg, Bool.not_eq_true]
      exact List.Perm.trans (List.Perm.cons b ih) (List.Perm.swap a b l)

theorem sortWith_perm (le : α → α → Bool) (l : List α) :
    List.Perm (sortWith le l) l := by
  induction l with
  | nil => exact List.Perm.refl _
  | cons a l ih =>
    exact List.Perm.trans (insertSorted_perm le a (sortWith le l)) (List.Perm.cons a ih)

theorem mem_insertSorted (le : α → α → Bool) (a x : α) (l : List α) :
    x ∈ insertSorted le a l ↔ x = a ∨ x ∈ l := by
  constructor
  · intro h
    have := (insertSorted_perm le a l).mem_iff.mp h
    simpa using this
  · intro h
    exact (insertSorted_perm le a l).mem_iff.mpr (by simpa using h)

theorem mem_sortWith (le : α → α → Bool) (x : α) (l : List α) :
    x ∈ sortWith le l ↔ x ∈ l :=
  (sortWith_perm le l).mem_iff

theorem pairwise_insertSorted (le : α → α → Bool)
    (htot : ∀ a b, le a b = false → le b a = true)
    (htr : ∀ a b c, le a b = true → le b c = true → le a c = true)
    (a : α) (l : List α) (h : l.Pairwise (fun x y => le x y = true)) :
    (insertSorted le a l).Pairwise (fun x y => le x y = true) := by
  induction l with
  | nil => simp [insertSorted]
  | cons b l ih =>
    simp only [insertSorted]
    rcases List.pairwise_cons.mp h with ⟨hb, hl⟩
    by_cases hab : le a b = true
    · simp only [hab, if_true]
      refine List.pairwise_cons.mpr ⟨?_, h⟩
      intro x hx
      rcases List.mem_cons.mp hx with hx | hx
      · exact hx ▸ hab
      · exact htr a b x hab (hb x hx)
    · simp only [hab, if_neg, Bool.not_eq_true]
      have hba : le b a = true := htot a b (by simpa using hab)
      refine List.pairwise_cons.mpr ⟨?_, ih hl⟩
      intro x hx
      rcases (mem_insertSorted le a x l).mp hx with hx | hx
      · exact hx ▸ hba
      · exact hb x hx

theorem pairwise_sortWith (le : α → α → Bool)
    (htot : ∀ a b, le a b = false → le b a = true)
    (htr : ∀ a b c, le a b = true → le b c = true → le a c = true)
    (l : List α) :
    (sortWith le l).Pairwise (fun x y => le x y = true) := by
  induction l with
  | nil => simp [sortWith]
  | cons a l ih => exact pairwise_insertSorted le htot htr a (sortWith le l) ih

theorem filter_insertSorted_pos (le : α → α → Bool) (p : α → Bool) (a : α) (l : List α)
    (hpa : p a = true) (hskip : ∀ b, le a b = false → p b = false) :
    (insertSorted le a l).filter p = a :: l.filter p := by
  induction l with
  | nil => simp [insertSorted, hpa]
  | cons b l ih =>
    simp only [insertSorted]
    by_cases hab : le a b = true
    · simp [hab, hpa]
    · have hpb : p b = false := hskip b (by simpa using hab)
      simp [hab, hpb, ih]

theorem filter_insertSorted_neg (le : α → α → Bool) (p : α → Bool) (a : α) (l : List α)
    (hpa : p a = false) :
    (insertSorted le a l).filter p = l.filter p := by
  induction l with
  | nil => simp [insertSorted, hpa]
  | cons b l ih =>
    simp only [insertSorted]
    by_cases hab : le a b = true
    · simp [hab, hpa]
    · by_cases hpb : p b = true
      · simp [hab, hpb, ih]
      · simp only [Bool.not_eq_true] at hpb
        simp [hab, hpb, ih]

/-! ## Generic key-sum aggregation (models `groupby(key)[col].sum()`) -/

/-- Sum of the values attached to key `k` in a list of (key, value) pairs. -/
def aggSum [DecidableEq κ] (l : List (κ × Nat)) (k : κ) : Nat :=
  ((l.filter (fun e => decide (e.1 = k))).map (fun e => e.2)).sum

/-- Look up a key in an aggregate table, defaulting to `0` for an absent
key (the value an absent entity contributes after a zero-fill). -/
def tableLookup [DecidableEq κ] (t : List (κ × Nat)) (k : κ) : Nat :=
  match t.find? (fun e => decide (e.1 = k)) with
  | some e => e.2
  | none => 0

theorem tableLookup_map_of_mem [DecidableEq κ] (f : κ → Nat) (ks : List κ) (k : κ)
    (hk : k ∈ ks) : tableLookup (ks.map (fun k => (k, f k))) k = f k := by
  induction ks with
  | nil => cases hk
  | cons k' ks ih =>
    by_cases h : k' = k
    · subst h
      simp [tableLookup, List.find?]
    · rcases List.mem_cons.mp hk with h' | h'
      · exact absurd h'.symm h
      · simpa [tableLookup, List.find?, h] using ih h'

theorem tableLookup_map_of_not_mem [DecidableEq κ] (f : κ → Nat) (ks : List κ) (k : κ)
    (hk : k ∉ ks) : tableLookup (ks.map (fun k => (k, f k))) k = 0 := by
  induction ks with
  | nil => simp [tableLookup, List.find?]
  | cons k' ks ih =>
    have h1 : k' ≠ k := fun h => hk (by simp [h])
    have h2 : k ∉ ks := fun h => hk (List.mem_cons_of_mem _ h)
    simpa [tableLookup, List.find?, h1] using ih h2

theorem aggSum_append [DecidableEq κ] (l1 l2 : List (κ × Nat)) (k : κ) :
    aggSum (l1 ++ l2) k = aggSum l1 k + aggSum l2 k := by
  simp [aggSum, List.filter_append]

/-! ## Sales aggregation from `top_sellers.load_sales_data`
(`combined_df.groupby(['sku', 'asin'])['quantity'].sum()`). -/

/-- One normalized sale line item (columns `sku`, `asin`, `quantity`). -/
structure SaleItem where
  sku : String
  asin : String
  quantity : Nat
deriving DecidableEq

/-- Grouping key used by `load_sales_data`: the (sku, asin) pair. -/
def skuAsinKey (r : SaleItem) : String × String := (r.sku, r.asin)

/-- Lexicographic order on the (sku, asin) grouping key; pandas `groupby`
sorts the group keys of the output. -/
def pairKeyLe (k1 k2 : String × String) : Bool :=
  decide (k1.1 < k2.1) || ((k1.1 == k2.1) && decide (k1.2 ≤ k2.2))

/-- The (key, quantity) pairs underlying the sales table. -/
def salesPairs (records : List SaleItem) : List ((String × String) × Nat) :=
  records.map (fun r => (skuAsinKey r, r.quantity))

/-- Shape shared by every `groupby(key)[col].sum().reset_index()` in the
pipeline: one output row per distinct key of the input pairs, keys emitted
in sorted order (pandas `groupby` sorts group keys), each carrying the sum
of its values. -/
def aggTable [DecidableEq κ] (le : κ → κ → Bool) (pairs : List (κ × Nat)) :
    List (κ × Nat) :=
  (sortWith le ((pairs.map (fun e => e.1)).dedup)).map (fun k => (k, aggSum pairs k))

theorem tableLookup_aggTable [DecidableEq κ] (le : κ → κ → Bool)
    (pairs : List (κ × Nat)) (k : κ) :
    tableLookup (aggTable le pairs) k = aggSum pairs k := by
  by_cases hk : k ∈ (pairs.map (fun e => e.1)).dedup
  · exact tableLookup_map_of_mem _ _ k ((mem_sortWith _ _ _).mpr hk)
  · have h0 : tableLookup (aggTable le pairs) k = 0 :=
      tableLookup_map_of_not_mem _ _ k (fun h => hk ((mem_sortWith _ _ _).mp h))
    have hnot : k ∉ pairs.map (fun e => e.1) := fun h => hk (List.mem_dedup.mpr h)
    have hfil : pairs.filter (fun e => decide (e.1 = k)) = [] := by
      apply List.filter_eq_nil_iff.mpr
      intro e he
      simp only [decide_eq_true_eq]
      intro hek
      exact hnot (List.mem_map.mpr ⟨e, he, hek⟩)
    rw [h0, aggSum, hfil]
    rfl

/-- Embedding of `load_sales_data`'s aggregation step: group the combined
sales rows by (sku, asin) and sum the quantity per group. -/
def sales_by_sku (records : List SaleItem) : List ((String × String) × Nat) :=
  aggTable pairKeyLe (salesPairs records)

theorem tableLookup_sales_by_sku (records : List SaleItem) (k : String × String) :
    tableLookup (sales_by_sku records) k = aggSum (salesPairs records) k := by
  have h : (salesPairs records).map (fun e => e.1) = records.map skuAsinKey := by
    simp [salesPairs]
  exact tableLookup_aggTable pairKeyLe (salesPairs records) k

/-- C9: aggregation is additive — for any partition of the sale records into
two sublists, aggregating each sublist with `sales_by_sku` and summing the
entries for a matching (sku, asin) key equals the entry for that key when
aggregating the whole list at once (absent keys count as 0). -/
theorem sales_aggregation_additive (l1 l2 : List SaleItem) (k : String × String) :
    tableLookup (sales_by_sku (l1 ++ l2)) k =
      tableLookup (sales_by_sku l1) k + tableLookup (sales_by_sku l2) k := by
  rw [tableLookup_sales_by_sku, tableLookup_sales_by_sku, tableLookup_sales_by_sku]
  have h : salesPairs (l1 ++ l2) = salesPairs l1 ++ salesPairs l2 := by
    simp [salesPairs]
  rw [h]
  exact aggSum_append _ _ _

/-! ## Pandas float cells

The return-rate computations divide one pandas column by another with no
zero guard, so a cell can hold NaN (`0 / 0`, or any arithmetic involving a
NaN produced by an unmatched left join) or +-infinity (`positive / 0`).
`PVal` models such a cell over exact rationals.  In the pipeline the
numerator of every division is a finite sum, so only finite/finite and
finite/NaN divisions ever occur; all remaining cases collapse to NaN. -/

inductive PVal where
  | nan : PVal
  | pinf : PVal
  | ninf : PVal
  | val : ℚ → PVal
deriving DecidableEq

/-- Division of two pandas cells (numpy semantics on the reachable cases:
`0/0 = NaN`, `a/0 = +-inf` for `a ≠ 0`, anything with NaN gives NaN). -/
def pdiv : PVal → PVal → PVal
  | .val a, .val b =>
    if b = 0 then (if a = 0 then .nan else if 0 < a then .pinf else .ninf)
    else .val (a / b)
  | _, _ => .nan

/-- Multiplication of a pandas cell by the scalar 100 (`* 100`); NaN and
the infinities are absorbing under multiplication by a positive scalar. -/
def pmul100 : PVal → PVal
  | .val a => .val (a * 100)
  | v => v

/-- Round a rational to the nearest integer, ties to even (the rounding
mode used by numpy/pandas `round`). -/
def halfEven (x : ℚ) : ℤ :=
  let f := ⌊x⌋
  if x - f < 1/2 then f
  else if (1 : ℚ)/2 < x - f then f + 1
  else if f % 2 = 0 then f else f + 1

/-- Embedding of `.round(2)` on an exact rational. -/
def round2 (x : ℚ) : ℚ := (halfEven (x * 100) : ℚ) / 100

/-- Pandas `.round(2)` on a cell: NaN and infinities pass through. -/
def pround2 : PVal → PVal
  | .val a => .val (round2 a)
  | v => v

/-! ## Return-rate formulas of the three reconcilers -/

/-- Embedding of `search_products.py`:
`(merged_data['Return quantity'] / merged_data['quantity'] * 100).round(2)`
on one row. -/
def searchReturnRate (rq sq : Nat) : PVal :=
  pround2 (pmul100 (pdiv (.val (rq : ℚ)) (.val (sq : ℚ))))

/-- Embedding of `top_sellers.py`:
`merged_data['Total Returns 2024'] / merged_data['Total Sold 2024'] * 100`
on one row (no rounding at this step; formatting happens at display). -/
def topSellersReturnRate (rq sq : Nat) : PVal :=
  pmul100 (pdiv (.val (rq : ℚ)) (.val (sq : ℚ)))

/-- Embedding of `returns.py` (`create_top_returns_table`):
`(merged_data['Return quantity'] / merged_data['Units Sold'] * 100).round(2)`
where the `Units Sold` cell may be NaN after the left merge. -/
def topReturnsRate (rq : Nat) (units : PVal) : PVal :=
  pround2 (pmul100 (pdiv (.val (rq : ℚ)) units))

/-- Embedding of the `search_products.py` reconciler on aggregate tables:
`pd.merge(sales_summary, returns_summary, ..., how='outer')` on the entity
identifier, followed by `fillna({'Return quantity': 0, 'quantity': 0, ...})`
and the per-row return-rate computation.  A row is
(key, quantity, return quantity, return rate). -/
def searchOuterMerge (salesAgg returnsAgg : List (String × Nat)) :
    List (String × Nat × Nat × PVal) :=
  let leftPart := salesAgg.map (fun e =>
    match returnsAgg.find? (fun r => r.1 == e.1) with
    | some r => (e.1, e.2, r.2)
    | none => (e.1, e.2, 0))
  let rightOnly := (returnsAgg.filter
      (fun r => !(salesAgg.any (fun e => e.1 == r.1)))).map
    (fun r => (r.1, 0, r.2))
  (leftPart ++ rightOnly).map (fun e => (e.1, e.2.1, e.2.2, searchReturnRate e.2.2 e.2.1))

theorem halfEven_nonneg (x : ℚ) (hx : 0 ≤ x) : 0 ≤ halfEven x := by
  have hf : (0 : ℤ) ≤ ⌊x⌋ := Int.floor_nonneg.mpr hx
  unfold halfEven
  dsimp only
  split
  · exact hf
  · split
    · omega
    · split
      · exact hf
      · omega

theorem round2_nonneg (x : ℚ) (hx : 0 ≤ x) : 0 ≤ round2 x := by
  unfold round2
  have h : (0 : ℚ) ≤ (halfEven (x * 100) : ℚ) := by
    exact_mod_cast halfEven_nonneg (x * 100) (by positivity)
  positivity

/-- C1 (amended): on a row whose sale quantity is positive, the search-page
return rate is the finite value `round2(returns / sales * 100)`, which is
nonnegative.  (When the sale quantity is 0 the code instead produces NaN or
+inf — see the counterexample.) -/
theorem return_rate_finite_of_pos_sales (rq sq : Nat) (h : 0 < sq) :
    searchReturnRate rq sq = PVal.val (round2 ((rq : ℚ) / (sq : ℚ) * 100)) ∧
    topSellersReturnRate rq sq = PVal.val ((rq : ℚ) / (sq : ℚ) * 100) ∧
    ∃ q : ℚ, searchReturnRate rq sq = PVal.val q ∧ 0 ≤ q := by
  have hsq : ((sq : ℚ)) ≠ 0 := by
    exact_mod_cast Nat.pos_iff_ne_zero.mp h
  have heq : searchReturnRate rq sq = PVal.val (round2 ((rq : ℚ) / (sq : ℚ) * 100)) := by
    simp [searchReturnRate, pdiv, pmul100, pround2, hsq]
  have heq2 : topSellersReturnRate rq sq = PVal.val ((rq : ℚ) / (sq : ℚ) * 100) := by
    simp [topSellersReturnRate, pdiv, pmul100, hsq]
  refine ⟨heq, heq2, round2 ((rq : ℚ) / (sq : ℚ) * 100), heq, ?_⟩
  apply round2_nonneg
  positivity

/-- Witness for the amended C1 theorem at returns = 3, sales = 2. -/
theorem return_rate_finite_of_pos_sales_witness :
    0 < 2 ∧ searchReturnRate 3 2 = PVal.val (round2 ((3 : ℚ) / (2 : ℚ) * 100)) :=
  ⟨by norm_num, (return_rate_finite_of_pos_sales 3 2 (by norm_num)).1⟩

/-- C1 counterexample: reconciling an empty sales aggregate with a returns
aggregate holding one entity with 3 returned units produces a row whose
sale quantity is 0 (zero-filled by the outer join) and whose return rate is
+infinity, not the value 0 the claim requires. -/
theorem return_rate_zero_sales_counterexample :
    searchOuterMerge [] [("B01", 3)] = [("B01", 0, 3, PVal.pinf)] ∧
    PVal.pinf ≠ PVal.val 0 := by
  constructor
  · have h3 : ((3 : Nat) : ℚ) ≠ 0 := by norm_num
    have h0 : ((0 : Nat) : ℚ) = 0 := by norm_num
    simp [searchOuterMerge, searchReturnRate, pdiv, pmul100, pround2, h0, h3]
  · intro h
    exact PVal.noConfusion h

/-! ## Dominant return reason (`x.mode().iloc[0]`)

All three aggregation sites (`returns.py` line 270, `top_sellers.py`
line 59, `search_products.py` line 138) reduce the group's `Return Reason`
column with `mode` and take element 0.  Pandas `mode` returns the distinct
values of maximal multiplicity in ascending sorted order, so element 0 is
the least such value; the enclosing lambda falls back to a "No returns"
sentinel for an empty group. -/

/-- Boolean lexicographic order on strings. -/
def strLe (a b : String) : Bool := decide (a ≤ b)

/-- Multiplicity of the most frequent value of the column. -/
def maxCount (l : List String) : Nat :=
  ((l.dedup).map (fun v => l.count v)).foldr max 0

/-- Distinct values of maximal multiplicity (the values pandas `mode`
returns). -/
def modeCandidates (l : List String) : List String :=
  (l.dedup).filter (fun v => l.count v == maxCount l)

/-- Embedding of `x.mode().iloc[0] if not x.empty else "No returns"`. -/
def modeIloc0 (l : List String) : String :=
  match sortWith strLe (modeCandidates l) with
  | [] => "No returns"
  | v :: _ => v

/-- Modelled from the spec's words, for comparison with `modeIloc0`: the
dominant reason is "the reason value with the highest summed return
quantity among that row's return records; ties broken by first-encountered
order".  A group is a list of (reason, return quantity) records. -/
def specDominantReasonBySum (g : List (String × Nat)) : Option String :=
  match (g.map (fun e => e.1)).dedup with
  | [] => none
  | r0 :: rest =>
    some (rest.foldl (fun best r => if aggSum g best < aggSum g r then r else best) r0)

theorem le_foldrMax (x : Nat) (xs : List Nat) (hx : x ∈ xs) :
    x ≤ xs.foldr max 0 := by
  induction xs with
  | nil => cases hx
  | cons y ys ih =>
    rcases List.mem_cons.mp hx with h | h
    · subst h
      exact le_max_left _ _
    · exact le_trans (ih h) (le_max_right _ _)

theorem foldrMax_mem_or_zero (xs : List Nat) :
    xs.foldr max 0 ∈ xs ∨ xs.foldr max 0 = 0 := by
  induction xs with
  | nil => exact Or.inr rfl
  | cons y ys ih =>
    simp only [List.foldr_cons]
    rcases le_total (ys.foldr max 0) y with h | h
    · exact Or.inl (by simp [Nat.max_eq_left h])
    · rw [Nat.max_eq_right h]
      rcases ih with h' | h'
      · exact Or.inl (List.mem_cons_of_mem _ h')
      · exact Or.inr h'

theorem modeCandidates_ne_nil (l : List String) (h : l ≠ []) :
    modeCandidates l ≠ [] := by
  obtain ⟨a, l', rfl⟩ := List.exists_cons_of_ne_nil h
  have ha : a ∈ (a :: l').dedup := List.mem_dedup.mpr (List.mem_cons_self a l')
  have hcnt : (a :: l').count a ∈ ((a :: l').dedup).map (fun v => (a :: l').count v) :=
    List.mem_map.mpr ⟨a, ha, rfl⟩
  have hle : (a :: l').count a ≤ maxCount (a :: l') := le_foldrMax _ _ hcnt
  have hpos : 0 < (a :: l').count a := List.count_pos_iff.mpr (List.mem_cons_self a l')
  rcases foldrMax_mem_or_zero (((a :: l').dedup).map (fun v => (a :: l').count v)) with hm | hm
  · rcases List.mem_map.mp hm with ⟨v, hv, hveq⟩
    have : v ∈ modeCandidates (a :: l') := by
      simp only [modeCandidates, List.mem_filter]
      exact ⟨hv, by simp [maxCount, hveq]⟩
    exact fun hnil => by simp [hnil] at this
  · exfalso
    have : (0 : Nat) < maxCount (a :: l') := lt_of_lt_of_le hpos hle
    simp [maxCount] at this
    omega

theorem mem_modeCandidates (l : List String) (v : String) :
    v ∈ modeCandidates l ↔ v ∈ l ∧ l.count v = maxCount l := by
  simp only [modeCandidates, List.mem_filter, List.mem_dedup, beq_iff_eq]

/-- C3 (amended): for a nonempty group, the reported dominant reason is a
reason that occurs in the group, its row count is maximal among all reasons
of the group, and among the reasons of maximal row count it is the
lexicographically least (pandas `mode` returns the modal values sorted and
`iloc[0]` takes the first) — not the reason of highest summed quantity and
not the first-encountered tie. -/
theorem mode_reason_most_frequent (l : List String) (h : l ≠ []) :
    modeIloc0 l ∈ l ∧
    (∀ v ∈ l, l.count v ≤ l.count (modeIloc0 l)) ∧
    (∀ v ∈ l, l.count v = l.count (modeIloc0 l) → modeIloc0 l ≤ v) := by
  have hcand : modeCandidates l ≠ [] := modeCandidates_ne_nil l h
  obtain ⟨r, t, hseq⟩ : ∃ r t, sortWith strLe (modeCandidates l) = r :: t := by
    cases hs : sortWith strLe (modeCandidates l) with
    | nil =>
      exfalso
      have hp := sortWith_perm strLe (modeCandidates l)
      rw [hs] at hp
      exact hcand hp.nil_eq.symm
    | cons a s => exact ⟨a, s, rfl⟩
  have hmode : modeIloc0 l = r := by
    unfold modeIloc0
    rw [hseq]
  have hrs : r ∈ sortWith strLe (modeCandidates l) := by
    rw [hseq]; exact List.mem_cons_self r t
  have hrc : r ∈ modeCandidates l := (mem_sortWith strLe r _).mp hrs
  rcases (mem_modeCandidates l r).mp hrc with ⟨hrl, hrcount⟩
  have hsorted : (sortWith strLe (modeCandidates l)).Pairwise (fun x y => strLe x y = true) := by
    apply pairwise_sortWith
    · intro a b hab
      simp only [strLe, decide_eq_false_iff_not, not_le] at hab
      simp [strLe, le_of_lt hab]
    · intro a b c hab hbc
      simp only [strLe, decide_eq_true_eq] at hab hbc ⊢
      exact le_trans hab hbc
  refine ⟨hmode ▸ hrl, ?_, ?_⟩
  · intro v hv
    rw [hmode, hrcount]
    exact le_foldrMax _ _ (List.mem_map.mpr ⟨v, List.mem_dedup.mpr hv, rfl⟩)
  · intro v hv hveq
    rw [hmode]
    rw [hmode, hrcount] at hveq
    have hvc : v ∈ modeCandidates l := (mem_modeCandidates l v).mpr ⟨hv, hveq⟩
    have hvs : v ∈ sortWith strLe (modeCandidates l) := (mem_sortWith strLe v _).mpr hvc
    rw [hseq] at hvs
    rcases List.mem_cons.mp hvs with h' | h'
    · exact le_of_eq h'.symm
    · have := (List.pairwise_cons.mp (hseq ▸ hsorted)).1 v h'
      simpa [strLe] using this

/-- Witness for the amended C3 theorem on the column ["A", "B", "B"]. -/
theorem mode_reason_most_frequent_witness :
    (["A", "B", "B"] : List String) ≠ [] ∧ modeIloc0 ["A", "B", "B"] ∈ ["A", "B", "B"] :=
  ⟨by decide, (mode_reason_most_frequent ["A", "B", "B"] (by decide)).1⟩

/-- C3 counterexample: for the group [("A", 10), ("B", 1), ("B", 1)] the
code reports mode "B" (2 rows beat 1 row), while the reason with the
highest summed return quantity is "A" (10 beats 2), so the reported
dominant reason is not the one the claim specifies. -/
theorem dominant_reason_counterexample :
    modeIloc0 ([("A", 10), ("B", 1), ("B", 1)].map (fun e : String × Nat => e.1)) = "B" ∧
    specDominantReasonBySum [("A", 10), ("B", 1), ("B", 1)] = some "A" ∧
    ("B" : String) ≠ "A" := by
  refine ⟨by decide, by decide, by decide⟩

/-! ## The two reconciling joins cited by the spec's outer-join contract

`top_sellers.create_top_sellers_table` runs
`pd.merge(sales_by_sku, returns_by_sku, on='SKU', how='left')` and then
fills the returns side (`fillna(0)` / `fillna("No Returns")`);
`returns.create_top_returns_table` runs
`pd.merge(returns_by_asin, sales_by_asin, on='ASIN', how='left')` and
applies no fill at all, leaving an unmatched `Units Sold` cell as NaN. -/

/-- Row of `returns_by_sku` in `top_sellers.py`: SKU, total returns,
modal return reason. -/
structure ReturnsAggRow where
  sku : String
  rqty : Nat
  reason : String
deriving DecidableEq

/-- Row of the merged top-sellers table: SKU, ASIN, units sold, returns
(zero-filled), reason (sentinel-filled), unrounded return rate. -/
structure TSRow where
  sku : String
  asin : String
  sold : Nat
  rqty : Nat
  reason : String
  rate : PVal
deriving DecidableEq

/-- Embedding of the top-sellers reconciliation: a left join on SKU.  Each
sales row pairs with every returns row of equal SKU (pandas duplicates on
key multiplicity); an unmatched sales row gets the post-merge fills
(returns 0, reason "No Returns"). -/
def topSellersMergeTable (sales : List (String × String × Nat))
    (rets : List ReturnsAggRow) : List TSRow :=
  sales.flatMap (fun e =>
    match rets.filter (fun r => r.sku == e.1) with
    | [] => [⟨e.1, e.2.1, e.2.2, 0, "No Returns", topSellersReturnRate 0 e.2.2⟩]
    | ms => ms.map (fun r =>
        ⟨e.1, e.2.1, e.2.2, r.rqty, r.reason, topSellersReturnRate r.rqty e.2.2⟩))

/-- Row of `returns_by_asin` in `returns.py`: ASIN, merchant SKU, total
return quantity, modal reason. -/
structure RetByAsinRow where
  asin : String
  msku : String
  rqty : Nat
  reason : String
deriving DecidableEq

/-- Row of the merged top-returns table; the units-sold and rate cells are
pandas cells, NaN when the sales side is absent (no fill is applied). -/
structure TRRow where
  asin : String
  msku : String
  rqty : Nat
  units : PVal
  rate : PVal
  reason : String
deriving DecidableEq

/-- Embedding of the top-returns reconciliation of
`create_top_returns_table`: a left join on ASIN with the returns aggregate
on the left; an unmatched returns row keeps NaN units sold. -/
def topReturnsMergeTable (rets : List RetByAsinRow)
    (sales : List (String × Nat)) : List TRRow :=
  rets.flatMap (fun e =>
    match sales.filter (fun s => s.1 == e.asin) with
    | [] => [⟨e.asin, e.msku, e.rqty, PVal.nan, topReturnsRate e.rqty PVal.nan, e.reason⟩]
    | ms => ms.map (fun s =>
        ⟨e.asin, e.msku, e.rqty, PVal.val (s.2 : ℚ),
          topReturnsRate e.rqty (PVal.val (s.2 : ℚ)), e.reason⟩))

theorem key_mem_of_filter_ne_nil (key : α → String) (l : List α) (k : String)
    (h : l.filter (fun r => key r == k) ≠ []) : k ∈ l.map key := by
  rcases List.exists_cons_of_ne_nil h with ⟨r, rs, hr⟩
  have : r ∈ l.filter (fun r => key r == k) := by rw [hr]; exact List.mem_cons_self r rs
  rcases List.mem_filter.mp this with ⟨hrl, hrk⟩
  have : key r = k := by simpa using hrk
  exact this ▸ List.mem_map.mpr ⟨r, hrl, rfl⟩

theorem filter_key_of_nodup (key : α → String) (l : List α)
    (hnd : (l.map key).Nodup) (k : String) :
    l.filter (fun r => key r == k) = [] ∨
      ∃ r, l.filter (fun r => key r == k) = [r] ∧ key r = k := by
  induction l with
  | nil => exact Or.inl rfl
  | cons a l ih =>
    simp only [List.map_cons, List.nodup_cons] at hnd
    by_cases ha : key a = k
    · refine Or.inr ⟨a, ?_, ha⟩
      have hfil : l.filter (fun r => key r == k) = [] := by
        apply List.filter_eq_nil_iff.mpr
        intro r hr
        simp only [beq_iff_eq]
        intro hrk
        exact hnd.1 (ha ▸ hrk ▸ List.mem_map.mpr ⟨r, hr, rfl⟩)
      simp [List.filter_cons, ha, hfil]
    · have hne : (key a == k) = false := by simpa using ha
      rcases ih hnd.2 with h | ⟨r, hr, hrk⟩
      · exact Or.inl (by simp [List.filter_cons, hne, h])
      · exact Or.inr ⟨r, by simp [List.filter_cons, hne, hr], hrk⟩

theorem map_bind_singleton (f : α → List β) (g : β → γ) (h : α → γ) (l : List α)
    (hf : ∀ e ∈ l, (f e).map g = [h e]) : ((l.flatMap f).map g) = l.map h := by
  induction l with
  | nil => rfl
  | cons a l ih =>
    simp only [List.flatMap_cons, List.map_append, List.map_cons]
    rw [hf a (List.mem_cons_self a l), ih (fun e he => hf e (List.mem_cons_of_mem a he))]
    rfl

/-- C2 (amended): the two cited reconciling joins are left joins, not
outer joins.  When the right table's keys are distinct (as the upstream
`groupby` guarantees), the output carries exactly the left table's entity
keys in order — entities appearing only in the right input are dropped.
An unmatched top-sellers row gets returns 0 and the "No Returns" sentinel;
an unmatched top-returns row keeps a NaN units-sold cell (no zero fill). -/
theorem reconciler_join_is_left_join (sales : List (String × String × Nat))
    (rets : List ReturnsAggRow) (retsA : List RetByAsinRow) (salesA : List (String × Nat))
    (h1 : (rets.map (fun r => r.sku)).Nodup) (h2 : (salesA.map (fun s => s.1)).Nodup) :
    (topSellersMergeTable sales rets).map (fun row => row.sku) = sales.map (fun e => e.1) ∧
    (∀ row ∈ topSellersMergeTable sales rets,
      row.sku ∉ rets.map (fun r => r.sku) → row.rqty = 0 ∧ row.reason = "No Returns") ∧
    (topReturnsMergeTable retsA salesA).map (fun row => row.asin) =
      retsA.map (fun e => e.asin) ∧
    (∀ row ∈ topReturnsMergeTable retsA salesA,
      row.asin ∉ salesA.map (fun s => s.1) → row.units = PVal.nan) := by
  refine ⟨?_, ?_, ?_, ?_⟩
  · apply map_bind_singleton
    intro e _
    rcases filter_key_of_nodup (fun r => r.sku) rets h1 e.1 with h | ⟨r, hr, _⟩
    · rw [h]
      rfl
    · rw [hr]
      rfl
  · intro row hrow hnot
    rcases List.mem_flatMap.mp hrow with ⟨e, _, hre⟩
    cases hfil : rets.filter (fun r => r.sku == e.1) with
    | nil =>
      rw [hfil] at hre
      rcases List.mem_singleton.mp hre with rfl
      exact ⟨rfl, rfl⟩
    | cons m ms =>
      rw [hfil] at hre
      rcases List.mem_map.mp hre with ⟨r, _, rfl⟩
      exfalso
      apply hnot
      have : rets.filter (fun r => r.sku == e.1) ≠ [] := by rw [hfil]; simp
      have hk := key_mem_of_filter_ne_nil (fun r => r.sku) rets e.1 this
      simpa using hk
  · apply map_bind_singleton
    intro e _
    rcases filter_key_of_nodup (fun s => s.1) salesA h2 e.asin with h | ⟨s, hs, _⟩
    · rw [h]
      rfl
    · rw [hs]
      rfl
  · intro row hrow hnot
    rcases List.mem_flatMap.mp hrow with ⟨e, _, hre⟩
    cases hfil : salesA.filter (fun s => s.1 == e.asin) with
    | nil =>
      rw [hfil] at hre
      rcases List.mem_singleton.mp hre with rfl
      rfl
    | cons m ms =>
      rw [hfil] at hre
      rcases List.mem_map.mp hre with ⟨s, _, rfl⟩
      exfalso
      apply hnot
      have : salesA.filter (fun s => s.1 == e.asin) ≠ [] := by rw [hfil]; simp
      have hk := key_mem_of_filter_ne_nil (fun s => s.1) salesA e.asin this
      simpa using hk

/-- Witness for the amended C2 theorem at one-row concrete tables. -/
theorem reconciler_join_is_left_join_witness :
    ([⟨"S1", 4, "Bad"⟩] : List ReturnsAggRow).map (fun r => r.sku) = ["S1"] ∧
    (topSellersMergeTable [("S1", "A1", 10)] [⟨"S1", 4, "Bad"⟩]).map (fun row => row.sku) =
      ["S1"] :=
  ⟨by decide,
    (reconciler_join_is_left_join [("S1", "A1", 10)] [⟨"S1", 4, "Bad"⟩] [] []
      (by decide) (by decide)).1⟩

/-- C2 counterexample: with sales aggregate {S1} and returns aggregate
{S2}, the top-sellers merge emits only the key S1 — one row, while the
union of entity keys of the two inputs has two elements, so an entity
present in (only) the returns input does not appear in the output. -/
theorem join_drops_right_only_counterexample :
    (topSellersMergeTable [("S1", "A1", 10)] [⟨"S2", 2, "Bad"⟩]).map (fun row => row.sku) =
      ["S1"] ∧
    ((["S1"] ++ ["S2"]).dedup).length = 2 ∧
    (topSellersMergeTable [("S1", "A1", 10)] [⟨"S2", 2, "Bad"⟩]).length ≠ 2 := by
  refine ⟨rfl, by decide, by decide⟩

/-! ## Date parsing in `create_returns_summary_table` (`returns.py`)

The date column is converted with one fixed format:
`pd.to_datetime(df['Return request date'], format='%m/%d/%y')`, inside a
try/except whose handler returns an empty DataFrame.  `strptime`-style
matching for `%m/%d/%y`: month and day are 1-2 digit numbers in range
(the day is checked against the month's length), the year is exactly two
digits, mapped to 2000+yy for 00-68 and 1900+yy for 69-99.  A missing
(NaN) cell becomes NaT and is removed afterwards by `dropna`; an
unparseable string raises, which the handler turns into an empty result
for the whole source. -/

/-- Gregorian leap-year test. -/
def leapYear (y : Nat) : Bool := (y % 4 == 0 && y % 100 != 0) || y % 400 == 0

/-- Number of days of month `m` in year `y`. -/
def daysInMonth (y m : Nat) : Nat :=
  if m == 2 then (if leapYear y then 29 else 28)
  else if m == 4 || m == 6 || m == 9 || m == 11 then 30
  else 31

/-- Split a character list at every occurrence of the separator `c`
(the separators are consumed; `n` separators yield `n + 1` groups). -/
def splitOnChar (c : Char) : List Char → List (List Char)
  | [] => [[]]
  | a :: rest =>
    if a = c then [] :: splitOnChar c rest
    else
      match splitOnChar c rest with
      | [] => [[a]]
      | g :: gs => (a :: g) :: gs

/-- Numeric value of a digit string (caller checks it is all digits). -/
def digitsToNat (l : List Char) : Nat :=
  l.foldl (fun n c => n * 10 + (c.toNat - 48)) 0

/-- Embedding of `datetime.strptime(s, '%m/%d/%y')`, reduced to the
(year, month) pair the pipeline keeps; `none` models the `ValueError`.
The month and day fields are 1-2 digit numbers in range, the year field
is exactly two digits. -/
def parseMDY (s : String) : Option (Nat × Nat) :=
  match splitOnChar '/' s.toList with
  | [ms, ds, ys] =>
    if ms ≠ [] ∧ ms.all Char.isDigit = true ∧ ms.length ≤ 2 ∧
        ds ≠ [] ∧ ds.all Char.isDigit = true ∧ ds.length ≤ 2 ∧
        ys.length = 2 ∧ ys.all Char.isDigit = true then
      let m := digitsToNat ms
      let d := digitsToNat ds
      let y2 := digitsToNat ys
      let y := if y2 ≤ 68 then 2000 + y2 else 1900 + y2
      if 1 ≤ m ∧ m ≤ 12 ∧ 1 ≤ d ∧ d ≤ daysInMonth y m then some (y, m) else none
    else none
  | _ => none

/-- One raw returns row, reduced to the columns the summary uses: the
`Return request date` cell (`none` models a NaN cell) and the
`Return quantity`. -/
structure RetRow where
  date : Option String
  rqty : Nat
deriving DecidableEq

/-- Conversion of one date cell: a NaN cell becomes NaT (kept as an inner
`none`), a string cell must parse. -/
def toDatetimeCell (r : RetRow) : Option (Option (Nat × Nat) × Nat) :=
  match r.date with
  | none => some (none, r.rqty)
  | some s => (parseMDY s).map (fun ym => (some ym, r.rqty))

/-- Embedding of `pd.to_datetime(col, format='%m/%d/%y')` over the whole
column: any unparseable string raises — the whole conversion yields
`none`. -/
def toDatetimeMDY : List RetRow → Option (List (Option (Nat × Nat) × Nat))
  | [] => some []
  | r :: rest =>
    match toDatetimeCell r with
    | none => none
    | some cell => (toDatetimeMDY rest).map (fun l => cell :: l)

/-- Order on (Year, Month) grouping keys. -/
def natPairLe (a b : Nat × Nat) : Bool :=
  decide (a.1 < b.1) || (a.1 == b.1 && decide (a.2 ≤ b.2))

/-- Embedding of the date-handling prefix of
`create_returns_summary_table`: convert the date column (raising on any
bad string), `dropna` the NaT rows, then group by (Year, Month) and sum
the return quantities; the except handler maps a raise to the empty
table. -/
def create_returns_summary (rows : List RetRow) : List ((Nat × Nat) × Nat) :=
  match toDatetimeMDY rows with
  | none => []
  | some col =>
    aggTable natPairLe (col.filterMap (fun e => e.1.map (fun ym => (ym, e.2))))

/-- Reference view of the same rows: the (year-month, quantity) pairs of
the rows whose date cell is present and parses. -/
def parsedPairs (rows : List RetRow) : List ((Nat × Nat) × Nat) :=
  rows.filterMap (fun r => (r.date.bind parseMDY).map (fun ym => (ym, r.rqty)))

theorem toDatetimeMDY_of_good (rows : List RetRow)
    (h : ∀ r ∈ rows, ∀ s, r.date = some s → (parseMDY s).isSome) :
    toDatetimeMDY rows = some (rows.map (fun r => (r.date.bind parseMDY, r.rqty))) := by
  induction rows with
  | nil => rfl
  | cons a l ih =>
    have ha := h a (List.mem_cons_self a l)
    have hl := ih (fun r hr s hs => h r (List.mem_cons_of_mem a hr) s hs)
    simp only [toDatetimeMDY]
    cases hd : a.date with
    | none => simp [toDatetimeCell, hd, hl]
    | some s =>
      rcases Option.isSome_iff_exists.mp (ha s hd) with ⟨ym, hym⟩
      simp [toDatetimeCell, hd, hym, hl]

theorem toDatetimeMDY_of_bad (rows : List RetRow) (r : RetRow) (hr : r ∈ rows)
    (s : String) (hs : r.date = some s) (hp : parseMDY s = none) :
    toDatetimeMDY rows = none := by
  induction rows with
  | nil => cases hr
  | cons a l ih =>
    simp only [toDatetimeMDY]
    rcases List.mem_cons.mp hr with h | h
    · subst h
      simp [toDatetimeCell, hs, hp]
    · cases hc : toDatetimeCell a with
      | none => rfl
      | some cell => simp [ih h]

/-- C4 (amended): `returns.py` parses dates with the single format
`%m/%d/%y` (two-digit year).  When every present date string parses in
that format, the summary aggregates the parsed rows (NaN dates are the
only per-row drops, via `dropna`).  When any present date string fails the
format, the raised error is caught and the ENTIRE source yields an empty
summary — the failing row is not dropped individually and no dropped-row
count exists anywhere in the code. -/
theorem returns_summary_date_policy (rows : List RetRow) :
    ((∀ r ∈ rows, ∀ s, r.date = some s → (parseMDY s).isSome) →
      ∀ y m, tableLookup (create_returns_summary rows) (y, m) =
        aggSum (parsedPairs rows) (y, m)) ∧
    ((∃ r ∈ rows, ∃ s, r.date = some s ∧ parseMDY s = none) →
      create_returns_summary rows = []) := by
  constructor
  · intro hgood y m
    have hcol := toDatetimeMDY_of_good rows hgood
    have hpairs :
        (rows.map (fun r => (r.date.bind parseMDY, r.rqty))).filterMap
            (fun e => e.1.map (fun ym => (ym, e.2))) = parsedPairs rows := by
      rw [List.filterMap_map]
      rfl
    simp only [create_returns_summary, hcol]
    rw [hpairs]
    exact tableLookup_aggTable natPairLe (parsedPairs rows) (y, m)
  · rintro ⟨r, hr, s, hs, hp⟩
    simp only [create_returns_summary, toDatetimeMDY_of_bad rows r hr s hs hp]

/-- Witness for the amended C4 theorem: a one-row source whose date is in
the supported format aggregates normally. -/
theorem returns_summary_date_policy_witness :
    tableLookup (create_returns_summary [⟨some "01/15/24", 2⟩]) (2024, 1) =
      aggSum (parsedPairs [⟨some "01/15/24", 2⟩]) (2024, 1) :=
  (returns_summary_date_policy [⟨some "01/15/24", 2⟩]).1
    (by decide) 2024 1

/-- C4 counterexample: `2024-01-15` is in the claim's first supported
format (`YYYY-MM-DD`) yet fails to parse, and its presence empties the
whole two-row source instead of dropping just that row — the claimed
result (the parseable row retained, drop count 1) is not produced. -/
theorem date_parse_counterexample :
    parseMDY "2024-01-15" = none ∧
    parseMDY "01/15/24" = some (2024, 1) ∧
    create_returns_summary [⟨some "01/15/24", 2⟩, ⟨some "2024-01-15", 3⟩] = [] ∧
    ([] : List ((Nat × Nat) × Nat)) ≠ [((2024, 1), 2)] := by
  refine ⟨by decide, by decide, by decide, by decide⟩

/-! ## Loader behavior when sources are missing

`returns.load_all_returns_data` guards each expected file with
`os.path.exists` and explicitly returns an empty DataFrame when no file
was loaded.  `top_sellers.load_sales_data` lists the directory
(`list_files` returns `[]` for a missing directory) and then calls
`pd.concat(data_frames)` with NO emptiness guard — `pd.concat` of an
empty list raises `ValueError: No objects to concatenate`. -/

/-- Embedding of `returns.load_all_returns_data`: each expected file is
either present (with its rows) or missing; missing files are skipped and
an empty table is returned when nothing was loaded. -/
def load_all_returns_data (files : List (Option (List RetRow))) : List RetRow :=
  let dfs := files.filterMap id
  if dfs.isEmpty then [] else dfs.flatten

/-- Embedding of `pd.concat`: raises on an empty list of frames. -/
def pdConcat (dfs : List (List A)) : Except String (List A) :=
  if dfs.isEmpty then Except.error "No objects to concatenate"
  else Except.ok dfs.flatten

/-- Embedding of `top_sellers.load_sales_data`: concatenate the loaded
sales frames (raising when the directory yielded no files) and
aggregate. -/
def ts_load_sales_data (files : List (List SaleItem)) :
    Except String (List ((String × String) × Nat)) :=
  (pdConcat files).map sales_by_sku

/-- C5 (amended): the combined returns loader skips missing files and
returns an empty table when every expected file is missing, but the
top-sellers sales loader raises an unhandled `ValueError` (from
`pd.concat` on no frames) when zero source files are found; with at least
one file it aggregates the concatenation. -/
theorem loaders_zero_sources (files : List (Option (List RetRow)))
    (tsfiles : List (List SaleItem)) :
    ((∀ f ∈ files, f = none) → load_all_returns_data files = []) ∧
    ts_load_sales_data [] = Except.error "No objects to concatenate" ∧
    (tsfiles ≠ [] → ts_load_sales_data tsfiles = Except.ok (sales_by_sku tsfiles.flatten)) := by
  refine ⟨?_, rfl, ?_⟩
  · intro h
    have hnil : files.filterMap id = [] := by
      apply List.filterMap_eq_nil_iff.mpr
      intro f hf
      rw [h f hf]
      rfl
    simp [load_all_returns_data, hnil]
  · intro h
    have : tsfiles.isEmpty = false := by
      cases tsfiles with
      | nil => exact absurd rfl h
      | cons a l => rfl
    simp [ts_load_sales_data, pdConcat, this, Except.map]

/-- Witness for the amended C5 theorem on concrete file sets. -/
theorem loaders_zero_sources_witness :
    load_all_returns_data [none, none, none] = [] ∧
    ts_load_sales_data [[⟨"S1", "A1", 5⟩]] =
      Except.ok (sales_by_sku [⟨"S1", "A1", 5⟩]) :=
  ⟨(loaders_zero_sources [none, none, none] []).1 (by decide),
    (loaders_zero_sources [] [[⟨"S1", "A1", 5⟩]]).2.2 (by decide)⟩

/-- C5 counterexample: with zero valid source files the top-sellers sales
loader raises (`pd.concat` of no objects) instead of returning an empty
result set. -/
theorem loader_raises_counterexample :
    ts_load_sales_data [] = Except.error "No objects to concatenate" ∧
    ∀ t : List ((String × String) × Nat), ts_load_sales_data [] ≠ Except.ok t := by
  refine ⟨rfl, ?_⟩
  intro t h
  exact Except.noConfusion h

/-! ## Top-N ranking (`nlargest(50, ...)` / `nlargest(500, ...)`) -/

/-- Descending order on rows by a Nat sort key: a row is placed before
another iff its key is at least as large; as an insertion condition this
keeps equal-key rows in input order, the behavior of pandas `nlargest`
with its default `keep='first'`. -/
def keyGe (key : A → Nat) (a b : A) : Bool := decide (key b ≤ key a)

/-- Embedding of `DataFrame.nlargest(n, col)`: the first `n` rows of the
stable descending sort by the column (`returns.py` uses n = 50 on the
return-quantity column, `top_sellers.py` n = 500 on the units-sold
column). -/
def nlargest (n : Nat) (key : A → Nat) (l : List A) : List A :=
  (sortWith (keyGe key) l).take n

theorem filter_sortWith_key (key : A → Nat) (k : Nat) (l : List A) :
    (sortWith (keyGe key) l).filter (fun a => key a == k) =
      l.filter (fun a => key a == k) := by
  induction l with
  | nil => rfl
  | cons a l ih =>
    show (insertSorted (keyGe key) a (sortWith (keyGe key) l)).filter _ = _
    by_cases hpa : (key a == k) = true
    · rw [filter_insertSorted_pos (keyGe key) _ a _ hpa ?_]
      · rw [ih]
        simp [List.filter_cons, hpa]
      · intro b hb
        have h1 : key a < key b := by
          have := of_decide_eq_false hb
          omega
        have h2 : key a = k := by simpa using hpa
        simp only [beq_eq_false_iff_ne, ne_eq]
        omega
    · rw [filter_insertSorted_neg (keyGe key) _ a _ (by simpa using hpa)]
      rw [ih]
      simp [List.filter_cons, hpa]

theorem pairwise_sort_desc (key : A → Nat) (l : List A) :
    (sortWith (keyGe key) l).Pairwise (fun a b => key b ≤ key a) := by
  have h := pairwise_sortWith (keyGe key)
    (fun a b hab => by
      have := of_decide_eq_false hab
      simp only [keyGe]
      exact decide_eq_true (by omega))
    (fun a b c hab hbc => by
      have h1 := of_decide_eq_true hab
      have h2 := of_decide_eq_true hbc
      simp only [keyGe]
      exact decide_eq_true (by omega)) l
  exact h.imp (fun hab => of_decide_eq_true hab)

/-- C6: the top-N ranking emits rows sorted descending by the sort key;
it keeps min(N, |input|) rows; the kept rows of any key value are an
initial segment of the input's rows of that key value in input order
(stable first-occurrence tie-break); and every row left out has a key no
larger than every kept row.  Re-running on an unchanged input trivially
reproduces the same output since the embedding is a function. -/
theorem nlargest_topN (n : Nat) (key : A → Nat) (l : List A) :
    (nlargest n key l).Pairwise (fun a b => key b ≤ key a) ∧
    (nlargest n key l).length = min n l.length ∧
    (∀ k, ∃ t, (nlargest n key l).filter (fun a => key a == k) ++ t =
        l.filter (fun a => key a == k)) ∧
    ∃ rest, List.Perm (nlargest n key l ++ rest) l ∧
      ∀ x ∈ rest, ∀ y ∈ nlargest n key l, key x ≤ key y := by
  refine ⟨?_, ?_, ?_, ?_⟩
  · exact (pairwise_sort_desc key l).sublist (List.take_sublist n _)
  · rw [nlargest, List.length_take, (sortWith_perm (keyGe key) l).length_eq]
  · intro k
    refine ⟨((sortWith (keyGe key) l).drop n).filter (fun a => key a == k), ?_⟩
    rw [nlargest, ← List.filter_append, List.take_append_drop, filter_sortWith_key]
  · refine ⟨(sortWith (keyGe key) l).drop n, ?_, ?_⟩
    · rw [nlargest, List.take_append_drop]
      exact sortWith_perm (keyGe key) l
    · intro x hx y hy
      have hsp := pairwise_sort_desc key l
      rw [← List.take_append_drop n (sortWith (keyGe key) l)] at hsp
      exact (List.pairwise_append.mp hsp).2.2 y hy x hx

/-- Witness instantiating the C6 theorem on a concrete table with a tie
across the cut boundary. -/
theorem nlargest_topN_witness :
    (nlargest 2 (fun e : String × Nat => e.2) [("a", 5), ("b", 7), ("c", 5)]).Pairwise
      (fun a b => b.2 ≤ a.2) :=
  (nlargest_topN 2 (fun e : String × Nat => e.2) [("a", 5), ("b", 7), ("c", 5)]).1

/-! ## Dense month grid of the monthly returns pivot (`returns.py`)

`create_returns_summary_table` pivots the (Year, Month) summary with
`fill_value=0`, renames the numeric month columns to `Jan` .. `Dec`,
appends a zero column for every month name still missing, and finally
reorders the columns to calendar order with
`pivot_table[list(month_names.values())]`. -/

/-- The `month_names` mapping of `returns.py`. -/
def monthName (m : Nat) : String :=
  match m with
  | 1 => "Jan" | 2 => "Feb" | 3 => "Mar" | 4 => "Apr" | 5 => "May" | 6 => "Jun"
  | 7 => "Jul" | 8 => "Aug" | 9 => "Sep" | 10 => "Oct" | 11 => "Nov" | 12 => "Dec"
  | _ => ""

/-- The calendar-ordered list of month names. -/
def monthNames : List String :=
  ["Jan", "Feb", "Mar", "Apr", "May", "Jun",
   "Jul", "Aug", "Sep", "Oct", "Nov", "Dec"]

/-- Boolean order on Nat. -/
def natLe (a b : Nat) : Bool := decide (a ≤ b)

/-- Months that occur in the summary (the pivot's column set, sorted as
pandas emits columns). -/
def presentMonths (summary : List ((Nat × Nat) × Nat)) : List Nat :=
  sortWith natLe ((summary.map (fun e => e.1.2)).dedup)

/-- Years that occur in the summary (the pivot's row index, sorted). -/
def pivotYears (summary : List ((Nat × Nat) × Nat)) : List Nat :=
  sortWith natLe ((summary.map (fun e => e.1.1)).dedup)

/-- Value of the pivot cell (year, month): the summed return quantity,
`fill_value=0` when the pair has no rows. -/
def cellValue (summary : List ((Nat × Nat) × Nat)) (y m : Nat) : Nat :=
  aggSum summary (y, m)

/-- Column lookup in a (column name, value) row; 0 for an absent name. -/
def lookupStr (t : List (String × Nat)) (nm : String) : Nat :=
  match t.find? (fun e => e.1 == nm) with
  | some e => e.2
  | none => 0

/-- One year row of the pivot right after the rename: one column per
month that occurs in the data. -/
def pivotRowRaw (summary : List ((Nat × Nat) × Nat)) (y : Nat) : List (String × Nat) :=
  (presentMonths summary).map (fun m => (monthName m, cellValue summary y m))

/-- The same row after the add-missing-months loop and the final reorder
to calendar order. -/
def pivotRowFull (summary : List ((Nat × Nat) × Nat)) (y : Nat) : List (String × Nat) :=
  let base := pivotRowRaw summary y
  let withMissing := base ++
    (monthNames.filter (fun nm => !(base.any (fun e => e.1 == nm)))).map (fun nm => (nm, 0))
  monthNames.map (fun nm => (nm, lookupStr withMissing nm))

/-- Embedding of the pivot-building portion of
`create_returns_summary_table`: one row per year of the summary. -/
def monthly_pivot (summary : List ((Nat × Nat) × Nat)) :
    List (Nat × List (String × Nat)) :=
  (pivotYears summary).map (fun y => (y, pivotRowFull summary y))

theorem monthName_inj_in_range (m m' : Nat) (h1 : 1 ≤ m) (h2 : m ≤ 12)
    (h1' : 1 ≤ m') (h2' : m' ≤ 12) (heq : monthName m' = monthName m) : m' = m := by
  have key : ∀ a ∈ List.range 13, ∀ b ∈ List.range 13,
      monthName b = monthName a → 1 ≤ a → 1 ≤ b → b = a := by decide
  exact key m (List.mem_range.mpr (by omega)) m' (List.mem_range.mpr (by omega)) heq h1 h1'

theorem find_map_inj (f : Nat → String) (g : Nat → Nat) (ms : List Nat) (m : Nat)
    (hm : m ∈ ms) (hinj : ∀ m' ∈ ms, f m' = f m → m' = m) :
    (ms.map (fun x => (f x, g x))).find? (fun e => e.1 == f m) = some (f m, g m) := by
  induction ms with
  | nil => cases hm
  | cons a ms ih =>
    by_cases ha : f a = f m
    · have : a = m := hinj a (List.mem_cons_self a ms) ha
      subst this
      simp [List.find?, ha]
    · have hne : (f a == f m) = false := by simpa using ha
      have hm' : m ∈ ms := by
        rcases List.mem_cons.mp hm with h | h
        · exact absurd (h ▸ rfl) ha
        · exact h
      simp only [List.map_cons, List.find?, hne]
      exact ih hm' (fun m' hm'' => hinj m' (List.mem_cons_of_mem a hm''))

theorem lookup_pivotRow (summary : List ((Nat × Nat) × Nat))
    (hm : ∀ e ∈ summary, 1 ≤ e.1.2 ∧ e.1.2 ≤ 12) (y m : Nat)
    (h1 : 1 ≤ m) (h2 : m ≤ 12) :
    lookupStr (pivotRowRaw summary y ++
        (monthNames.filter
          (fun nm => !((pivotRowRaw summary y).any (fun e => e.1 == nm)))).map
          (fun nm => (nm, 0)))
      (monthName m) = cellValue summary y m := by
  have hsub : ∀ m' ∈ presentMonths summary, 1 ≤ m' ∧ m' ≤ 12 := by
    intro m' hm'
    have : m' ∈ (summary.map (fun e => e.1.2)).dedup := (mem_sortWith _ _ _).mp hm'
    rcases List.mem_map.mp (List.mem_dedup.mp this) with ⟨e, he, rfl⟩
    exact hm e he
  by_cases hin : m ∈ presentMonths summary
  · have hfind :
        (pivotRowRaw summary y).find? (fun e => e.1 == monthName m) =
          some (monthName m, cellValue summary y m) := by
      apply find_map_inj (fun x => monthName x) (fun x => cellValue summary y x)
        (presentMonths summary) m hin
      intro m' hm' heq
      rcases hsub m' hm' with ⟨a1, a2⟩
      exact monthName_inj_in_range m m' h1 h2 a1 a2 heq
    rw [lookupStr, List.find?_append, hfind]
    rfl
  · have hbase : (pivotRowRaw summary y).find? (fun e => e.1 == monthName m) = none := by
      apply List.find?_eq_none.mpr
      intro e he
      rcases List.mem_map.mp he with ⟨m', hm', rfl⟩
      rcases hsub m' hm' with ⟨a1, a2⟩
      simp only [beq_eq_false_iff_ne, ne_eq, beq_iff_eq]
      intro heq
      exact hin ((monthName_inj_in_range m m' h1 h2 a1 a2 heq) ▸ hm')
    have hcell : cellValue summary y m = 0 := by
      have hnotm : m ∉ summary.map (fun e => e.1.2) := by
        intro hmem
        exact hin ((mem_sortWith _ _ _).mpr (List.mem_dedup.mpr hmem))
      rw [cellValue, aggSum]
      have : summary.filter (fun e => decide (e.1 = (y, m))) = [] := by
        apply List.filter_eq_nil_iff.mpr
        intro e he
        simp only [decide_eq_true_eq]
        intro hek
        exact hnotm (List.mem_map.mpr ⟨e, he, by rw [hek]⟩)
      rw [this]
      rfl
    rw [hcell, lookupStr, List.find?_append, hbase]
    cases hfind : ((monthNames.filter
        (fun nm => !((pivotRowRaw summary y).any (fun e => e.1 == nm)))).map
        (fun nm => (nm, 0))).find? (fun e => e.1 == monthName m) with
    | none => rfl
    | some e =>
      have hmem := List.mem_of_find?_eq_some hfind
      rcases List.mem_map.mp hmem with ⟨nm, _, rfl⟩
      rfl

/-- C7: every year row of the monthly pivot is dense over the 12 calendar
months in order Jan .. Dec, the cell for a month being the summed return
quantity of that (year, month) and exactly 0 when the month has no
observed rows. -/
theorem monthly_grid_dense (summary : List ((Nat × Nat) × Nat))
    (hm : ∀ e ∈ summary, 1 ≤ e.1.2 ∧ e.1.2 ≤ 12) :
    ∀ y row, (y, row) ∈ monthly_pivot summary →
      row = (List.range 12).map
        (fun i => (monthName (i + 1), cellValue summary y (i + 1))) := by
  intro y row hrow
  rcases List.mem_map.mp hrow with ⟨y', _, heq⟩
  have hy : y' = y := congrArg Prod.fst heq
  subst hy
  have hrowEq : row = pivotRowFull summary y' := (congrArg Prod.snd heq).symm
  subst hrowEq
  have hnames : monthNames = (List.range 12).map (fun i => monthName (i + 1)) := by decide
  rw [pivotRowFull]
  set W := pivotRowRaw summary y' ++
    (monthNames.filter
      (fun nm => !((pivotRowRaw summary y').any (fun e => e.1 == nm)))).map
      (fun nm => (nm, 0)) with hW
  have hlook : ∀ m, 1 ≤ m → m ≤ 12 → lookupStr W (monthName m) = cellValue summary y' m := by
    intro m a b
    rw [hW]
    exact lookup_pivotRow summary hm y' m a b
  rw [hnames, List.map_map]
  apply List.map_congr_left
  intro i hi
  have hi12 : i < 12 := List.mem_range.mp hi
  simp only [Function.comp]
  rw [hlook (i + 1) (by omega) (by omega)]

/-- Witness for the C7 theorem on a one-row summary (March 2024). -/
theorem monthly_grid_dense_witness :
    (monthly_pivot [((2024, 3), 7)]).length = 1 ∧
    ∀ row, (2024, row) ∈ monthly_pivot [((2024, 3), 7)] →
      row = (List.range 12).map
        (fun i => (monthName (i + 1), cellValue [((2024, 3), 7)] 2024 (i + 1))) := by
  exact ⟨by decide, fun row => monthly_grid_dense [((2024, 3), 7)] (by decide) 2024 row⟩

/-! ## SKU variant canonicalizer (`search_products.py`)

`clean_sku_string` is `sku.replace('-FBA-', '-')`; `get_unique_skus`
splits a comma-joined SKU string, strips whitespace, builds a dict from
cleaned SKU to a representative original (insertion keeps first-seen key
order; a later non-FBA spelling overwrites the value but not the key
position), and returns the sorted keys joined with ", ". -/

/-- Leading-match test: the first list is an initial run of the second. -/
def leadMatch : List Char → List Char → Bool
  | [], _ => true
  | _ :: _, [] => false
  | a :: as, b :: bs => a == b && leadMatch as bs

/-- Substring test over character lists (Python `in`). -/
def hasSub (pat : List Char) : List Char → Bool
  | [] => leadMatch pat []
  | c :: s => leadMatch pat (c :: s) || hasSub pat s

/-- Python `'-FBA-' in sku`. -/
def containsFBA (sku : String) : Bool := hasSub "-FBA-".toList sku.toList

/-- One left-to-right, non-overlapping replacement pass of
`'-FBA-'` by `'-'` (Python `str.replace` semantics). -/
def cleanList : List Char → List Char
  | '-' :: 'F' :: 'B' :: 'A' :: '-' :: rest => '-' :: cleanList rest
  | c :: rest => c :: cleanList rest
  | [] => []

/-- Embedding of `clean_sku_string`: `sku.replace('-FBA-', '-')`. -/
def clean_sku_string (sku : String) : String := String.mk (cleanList sku.toList)

/-- Drop leading whitespace of a character list. -/
def dropLeading : List Char → List Char
  | [] => []
  | c :: rest => if c.isWhitespace then dropLeading rest else c :: rest

/-- Python `str.strip()`. -/
def stripList (l : List Char) : List Char :=
  ((dropLeading (dropLeading l).reverse).reverse)

/-- Insert into the assoc-list model of a Python dict: assigning an
existing key replaces its value in place, a new key is appended. -/
def dictInsert (d : List (String × String)) (k v : String) : List (String × String) :=
  if d.any (fun e => e.1 == k) then d.map (fun e => if e.1 == k then (k, v) else e)
  else d ++ [(k, v)]

/-- One iteration of the `get_unique_skus` loop:
`if clean not in d or '-FBA-' not in sku: d[clean] = sku`. -/
def skuDictStep (d : List (String × String)) (sku : String) : List (String × String) :=
  let clean := clean_sku_string sku
  if !(d.any (fun e => e.1 == clean)) || !(containsFBA sku) then dictInsert d clean sku
  else d

/-- The split-and-strip prefix of `get_unique_skus`:
`[sku.strip() for sku in skus.split(',')]`. -/
def skuSplit (skus : String) : List String :=
  (splitOnChar ',' skus.toList).map (fun l => String.mk (stripList l))

/-- Embedding of `get_unique_skus`: build the clean-keyed dict and return
`', '.join(sorted(d.keys()))`. -/
def get_unique_skus (skus : String) : String :=
  String.intercalate ", "
    (sortWith strLe (((skuSplit skus).foldl skuDictStep []).map (fun e => e.1)))

/-- Modelled from the spec's words, for comparison with
`get_unique_skus`: strip the fulfillment marker from each SKU of the
comma-separated list and return the canonical identities,
lexicographically sorted and deduplicated. -/
def specCanonicalSkus (skus : String) : String :=
  String.intercalate ", "
    (sortWith strLe (((skuSplit skus).map clean_sku_string).dedup))

theorem dictInsert_keys (d : List (String × String)) (k v : String) :
    (dictInsert d k v).map (fun e => e.1) =
      if d.any (fun e => e.1 == k) then d.map (fun e => e.1)
      else d.map (fun e => e.1) ++ [k] := by
  unfold dictInsert
  by_cases h : d.any (fun e => e.1 == k) = true
  · simp only [h, if_true, List.map_map]
    apply List.map_congr_left
    intro e _
    by_cases hek : (e.1 == k) = true
    · simp only [Function.comp, hek, if_true]
      exact (beq_iff_eq.mp hek).symm
    · simp only [Bool.not_eq_true] at hek
      simp [Function.comp, hek]
  · simp only [Bool.not_eq_true] at h
    simp [h]

theorem mem_keys_skuDictStep (d : List (String × String)) (a x : String) :
    x ∈ (skuDictStep d a).map (fun e => e.1) ↔
      x ∈ d.map (fun e => e.1) ∨ x = clean_sku_string a := by
  unfold skuDictStep
  by_cases h : (!(d.any (fun e => e.1 == clean_sku_string a)) || !(containsFBA a)) = true
  · simp only [h, if_true]
    rw [dictInsert_keys]
    by_cases h2 : d.any (fun e => e.1 == clean_sku_string a) = true
    · simp only [h2, if_true]
      constructor
      · exact Or.inl
      · rintro (hx | rfl)
        · exact hx
        · rcases List.any_eq_true.mp h2 with ⟨e, he, hek⟩
          exact List.mem_map.mpr ⟨e, he, beq_iff_eq.mp hek⟩
    · simp only [Bool.not_eq_true] at h2
      simp [h2, List.mem_append]
  · simp only [Bool.not_eq_true] at h
    rcases Bool.or_eq_false_iff.mp h with ⟨h1, _⟩
    have h2 : d.any (fun e => e.1 == clean_sku_string a) = true := by
      cases hany : d.any (fun e => e.1 == clean_sku_string a) with
      | false => rw [hany] at h1; cases h1
      | true => rfl
    simp only [h, Bool.false_eq_true, if_false]
    constructor
    · exact Or.inl
    · rintro (hx | rfl)
      · exact hx
      · rcases List.any_eq_true.mp h2 with ⟨e, he, hek⟩
        exact List.mem_map.mpr ⟨e, he, beq_iff_eq.mp hek⟩

theorem mem_keys_foldl (l : List String) (d : List (String × String)) (x : String) :
    x ∈ (l.foldl skuDictStep d).map (fun e => e.1) ↔
      x ∈ d.map (fun e => e.1) ∨ x ∈ l.map clean_sku_string := by
  induction l generalizing d with
  | nil => simp
  | cons a l ih =>
    simp only [List.foldl_cons, List.map_cons, List.mem_cons]
    rw [ih, mem_keys_skuDictStep]
    tauto

theorem nodup_keys_skuDictStep (d : List (String × String)) (a : String)
    (hd : (d.map (fun e => e.1)).Nodup) :
    ((skuDictStep d a).map (fun e => e.1)).Nodup := by
  unfold skuDictStep
  by_cases h : (!(d.any (fun e => e.1 == clean_sku_string a)) || !(containsFBA a)) = true
  · simp only [h, if_true]
    rw [dictInsert_keys]
    by_cases h2 : d.any (fun e => e.1 == clean_sku_string a) = true
    · simpa [h2] using hd
    · simp only [Bool.not_eq_true] at h2
      simp only [h2, Bool.false_eq_true, if_false]
      rw [List.nodup_append]
      refine ⟨hd, List.nodup_singleton _, ?_⟩
      intro y hy hy1
      rcases List.mem_singleton.mp hy1 with rfl
      rcases List.mem_map.mp hy with ⟨e, he, hek⟩
      have : d.any (fun e => e.1 == clean_sku_string a) = true :=
        List.any_eq_true.mpr ⟨e, he, beq_iff_eq.mpr hek⟩
      rw [this] at h2
      cases h2
  · simp only [h, Bool.false_eq_true, if_false]
    exact hd

theorem nodup_keys_foldl (l : List String) (d : List (String × String))
    (hd : (d.map (fun e => e.1)).Nodup) :
    ((l.foldl skuDictStep d).map (fun e => e.1)).Nodup := by
  induction l generalizing d with
  | nil => exact hd
  | cons a l ih => exact ih _ (nodup_keys_skuDictStep d a hd)

theorem sortWith_str_eq_of_perm (l1 l2 : List String) (hp : l1.Perm l2) :
    sortWith strLe l1 = sortWith strLe l2 := by
  have htot : ∀ a b : String, strLe a b = false → strLe b a = true := by
    intro a b hab
    have := of_decide_eq_false hab
    exact decide_eq_true (le_of_lt (lt_of_not_le this))
  have htr : ∀ a b c : String, strLe a b = true → strLe b c = true → strLe a c = true := by
    intro a b c hab hbc
    exact decide_eq_true (le_trans (of_decide_eq_true hab) (of_decide_eq_true hbc))
  apply List.eq_of_perm_of_sorted (r := fun a b : String => a ≤ b)
  · exact ((sortWith_perm strLe l1).trans hp).trans (sortWith_perm strLe l2).symm
  · exact (pairwise_sortWith strLe htot htr l1).imp (fun h => of_decide_eq_true h)
  · exact (pairwise_sortWith strLe htot htr l2).imp (fun h => of_decide_eq_true h)

/-- C8: `get_unique_skus` returns exactly the canonical identities of the
comma-separated input — each SKU stripped of the `-FBA-` marker — as a
deduplicated, lexicographically sorted, comma-joined list; in particular
a marked variant and its unmarked form collapse to the single unmarked
entry. -/
theorem get_unique_skus_canonical (skus : String) :
    get_unique_skus skus = specCanonicalSkus skus := by
  unfold get_unique_skus specCanonicalSkus
  congr 1
  apply sortWith_str_eq_of_perm
  apply (List.perm_ext_iff_of_nodup ?_ ?_).mpr
  · intro x
    rw [mem_keys_foldl, List.mem_dedup]
    simp
  · exact nodup_keys_foldl _ [] (by simp)
  · exact List.nodup_dedup _

/-! ## Product search (`search_products.search_products_page`)

The page first filters both combined tables by exact case-insensitive
ASIN equality; only when both filters are empty does it look for SKUs
containing the query (case-insensitively), collect the ASINs of the
matching rows from both tables, and — when any were found — re-filter
both tables to ALL rows of those ASINs.  The substring test models
`str.contains` for a query without regex metacharacters; case folding
models `.upper()` on ASCII. -/

/-- One combined sales row as the search page uses it. -/
structure SSaleRow where
  asin : String
  sku : String
  qty : Nat
deriving DecidableEq

/-- One combined returns row as the search page uses it. -/
structure SRetRow where
  asin : String
  msku : String
  rqty : Nat
  reason : String
deriving DecidableEq

/-- ASCII upper-casing (`.upper()` / `.str.upper()`). -/
def strUpper (s : String) : String := String.mk (s.toList.map Char.toUpper)

/-- Case-insensitive literal substring test
(`col.str.upper().str.contains(query_upper)`). -/
def strContainsCI (s q : String) : Bool :=
  hasSub (strUpper q).toList (strUpper s).toList

/-- The exact ASIN filter on the sales side. -/
def exactSalesMatch (q : String) (sales : List SSaleRow) : List SSaleRow :=
  sales.filter (fun r => strUpper r.asin == strUpper q)

/-- The exact ASIN filter on the returns side. -/
def exactReturnsMatch (q : String) (rets : List SRetRow) : List SRetRow :=
  rets.filter (fun r => strUpper r.asin == strUpper q)

/-- ASINs with at least one SKU matching the query, from either table
(`set(matching_sales_asins) | set(matching_returns_asins)`; only
membership is used downstream). -/
def matchingAsins (q : String) (sales : List SSaleRow) (rets : List SRetRow) :
    List String :=
  (((sales.filter (fun r => strContainsCI r.sku q)).map (fun r => r.asin)) ++
    ((rets.filter (fun r => strContainsCI r.msku q)).map (fun r => r.asin))).dedup

/-- Embedding of the search filter: exact ASIN match takes precedence;
the SKU fallback keeps all rows of every matched ASIN; with no matches at
all the (empty) exact filters are kept. -/
def searchFilter (q : String) (sales : List SSaleRow) (rets : List SRetRow) :
    List SSaleRow × List SRetRow :=
  let sf := exactSalesMatch q sales
  let rf := exactReturnsMatch q rets
  if sf.isEmpty && rf.isEmpty then
    let mas := matchingAsins q sales rets
    if mas.isEmpty then (sf, rf)
    else (sales.filter (fun r => mas.contains r.asin),
          rets.filter (fun r => mas.contains r.asin))
  else (sf, rf)

theorem mem_matchingAsins (q : String) (sales : List SSaleRow) (rets : List SRetRow)
    (a : String) :
    a ∈ matchingAsins q sales rets ↔
      (∃ r ∈ sales, r.asin = a ∧ strContainsCI r.sku q = true) ∨
      (∃ t ∈ rets, t.asin = a ∧ strContainsCI t.msku q = true) := by
  unfold matchingAsins
  rw [List.mem_dedup, List.mem_append]
  simp only [List.mem_map, List.mem_filter]
  constructor
  · rintro (⟨r, ⟨hr, hc⟩, ha⟩ | ⟨t, ⟨ht, hc⟩, ha⟩)
    · exact Or.inl ⟨r, hr, ha, hc⟩
    · exact Or.inr ⟨t, ht, ha, hc⟩
  · rintro (⟨r, hr, ha, hc⟩ | ⟨t, ht, ha, hc⟩)
    · exact Or.inl ⟨r, ⟨hr, hc⟩, ha⟩
    · exact Or.inr ⟨t, ⟨ht, hc⟩, ha⟩

/-- C10: an exact case-insensitive ASIN match takes precedence (the
result is then the pair of exact filters); when both exact filters are
empty, a row of either table is in the result iff its ASIN has at least
one query-matching SKU in either table — i.e. the fallback returns all
rows of every matched ASIN, not only the matching rows. -/
theorem isEmpty_false_of_ne_nil (l : List A) (h : l ≠ []) : l.isEmpty = false := by
  cases l with
  | nil => exact absurd rfl h
  | cons a as => rfl

/-- C10: an exact case-insensitive ASIN match takes precedence (the
result is then the pair of exact filters); when both exact filters are
empty, a row of either table is in the result iff its ASIN has at least
one query-matching SKU in either table — i.e. the fallback returns all
rows of every matched ASIN, not only the matching rows. -/
theorem search_precedence (q : String) (sales : List SSaleRow) (rets : List SRetRow) :
    ((exactSalesMatch q sales ≠ [] ∨ exactReturnsMatch q rets ≠ []) →
      searchFilter q sales rets = (exactSalesMatch q sales, exactReturnsMatch q rets)) ∧
    (exactSalesMatch q sales = [] → exactReturnsMatch q rets = [] →
      (∀ r, r ∈ (searchFilter q sales rets).1 ↔
        r ∈ sales ∧
          ((∃ r' ∈ sales, r'.asin = r.asin ∧ strContainsCI r'.sku q = true) ∨
           (∃ t ∈ rets, t.asin = r.asin ∧ strContainsCI t.msku q = true))) ∧
      (∀ t, t ∈ (searchFilter q sales rets).2 ↔
        t ∈ rets ∧
          ((∃ r' ∈ sales, r'.asin = t.asin ∧ strContainsCI r'.sku q = true) ∨
           (∃ t' ∈ rets, t'.asin = t.asin ∧ strContainsCI t'.msku q = true)))) := by
  constructor
  · intro h
    have hc : (((exactSalesMatch q sales).isEmpty) && ((exactReturnsMatch q rets).isEmpty))
        = false := by
      rcases h with h | h
      · rw [isEmpty_false_of_ne_nil _ h, Bool.false_and]
      · rw [isEmpty_false_of_ne_nil _ h, Bool.and_false]
    simp only [searchFilter, hc, Bool.false_eq_true, if_false]
  · intro h1 h2
    have hc : (((exactSalesMatch q sales).isEmpty) && ((exactReturnsMatch q rets).isEmpty))
        = true := by
      rw [h1, h2]
      rfl
    by_cases hmas : matchingAsins q sales rets = []
    · have hmase : (matchingAsins q sales rets).isEmpty = true := by
        rw [hmas]
        rfl
      have hres : searchFilter q sales rets =
          (exactSalesMatch q sales, exactReturnsMatch q rets) := by
        simp only [searchFilter, hc, hmase, if_true]
      rw [hres, h1, h2]
      constructor
      · intro r
        constructor
        · intro hx
          exact absurd hx (List.not_mem_nil r)
        · rintro ⟨_, hmatch⟩
          exfalso
          have hr := (mem_matchingAsins q sales rets r.asin).mpr hmatch
          rw [hmas] at hr
          exact absurd hr (List.not_mem_nil _)
      · intro t
        constructor
        · intro hx
          exact absurd hx (List.not_mem_nil t)
        · rintro ⟨_, hmatch⟩
          exfalso
          have ht := (mem_matchingAsins q sales rets t.asin).mpr hmatch
          rw [hmas] at ht
          exact absurd ht (List.not_mem_nil _)
    · have hmase : (matchingAsins q sales rets).isEmpty = false :=
        isEmpty_false_of_ne_nil _ hmas
      have hres : searchFilter q sales rets =
          (sales.filter (fun r => (matchingAsins q sales rets).contains r.asin),
           rets.filter (fun r => (matchingAsins q sales rets).contains r.asin)) := by
        simp only [searchFilter, hc, hmase, if_true, Bool.false_eq_true, if_false]
      rw [hres]
      constructor
      · intro r
        show r ∈ sales.filter (fun r => (matchingAsins q sales rets).contains r.asin) ↔ _
        rw [List.mem_filter]
        constructor
        · rintro ⟨hr, hcont⟩
          exact ⟨hr, (mem_matchingAsins q sales rets r.asin).mp
            (List.mem_of_elem_eq_true hcont)⟩
        · rintro ⟨hr, hmatch⟩
          exact ⟨hr, List.elem_eq_true_of_mem
            ((mem_matchingAsins q sales rets r.asin).mpr hmatch)⟩
      · intro t
        show t ∈ rets.filter (fun r => (matchingAsins q sales rets).contains r.asin) ↔ _
        rw [List.mem_filter]
        constructor
        · rintro ⟨ht, hcont⟩
          exact ⟨ht, (mem_matchingAsins q sales rets t.asin).mp
            (List.mem_of_elem_eq_true hcont)⟩
        · rintro ⟨ht, hmatch⟩
          exact ⟨ht, List.elem_eq_true_of_mem
            ((mem_matchingAsins q sales rets t.asin).mpr hmatch)⟩

/-- Witness for the C10 theorem: the query `X1` matches no ASIN but is a
substring of the SKU `AX1B`, so the whole sales row of ASIN `A1` is
returned by the fallback. -/
theorem search_precedence_witness :
    exactSalesMatch "X1" [⟨"A1", "AX1B", 5⟩] = [] ∧
    (⟨"A1", "AX1B", 5⟩ : SSaleRow) ∈ (searchFilter "X1" [⟨"A1", "AX1B", 5⟩] []).1 := by
  refine ⟨by decide, ?_⟩
  have h := (search_precedence "X1" [⟨"A1", "AX1B", 5⟩] []).2 (by decide) (by decide)
  exact (h.1 ⟨"A1", "AX1B", 5⟩).mpr
    ⟨by decide, Or.inl ⟨⟨"A1", "AX1B", 5⟩, by decide, rfl, by decide⟩⟩

end AmazonReturns
